import Mathlib

/-!
# Verification of the daily-sales ETL pipeline

A shallow embedding of `daily_sales_etl.py` (extract / transform / load over
pandas DataFrames plus an embedded duckdb table store), with proofs of the
specification's testable properties.

Column names are modelled as lists of Unicode codepoints (`List Nat`), data
rows as typed records matching the `daily_sales` schema, the persistent store
as a list of rows ordered by insertion, and a caught Python exception as an
`Option` result (`none` = the stage logged the error and returned `None`).
-/

namespace DailySalesETL

/-! ## Column-name normalization (source: `standardize_column_names`) -/

/-- ASCII whitespace class of Python's `str.strip` / regex `\s`. -/
def isPySpace (c : Nat) : Bool :=
  c = 32 || c = 9 || c = 10 || c = 13 || c = 11 || c = 12

/-- The character class kept by `re.sub(r'[^0-9a-zA-Z\s_]', '', col)`:
digits, ASCII letters, whitespace, underscore. -/
def keptByRegex (c : Nat) : Bool :=
  (48 ≤ c && c ≤ 57) || (65 ≤ c && c ≤ 90) || (97 ≤ c && c ≤ 122)
    || isPySpace c || c = 95

/-- Python `str.lower` on a codepoint (ASCII range, as exercised here). -/
def pyLower (c : Nat) : Nat :=
  if 65 ≤ c && c ≤ 90 then c + 32 else c

/-- Python `str.strip`: drop leading and trailing whitespace. -/
def pyStrip (l : List Nat) : List Nat :=
  ((l.dropWhile isPySpace).reverse.dropWhile isPySpace).reverse

/-- Model of `re.sub(r'\s+', '_', col)`: each maximal whitespace run becomes a single
underscore (codepoint 95).  The flag records whether the previous character
was part of a whitespace run already replaced. -/
def collapseWsGo (prevSpace : Bool) : List Nat → List Nat
  | [] => []
  | c :: rest =>
    if isPySpace c then
      if prevSpace then collapseWsGo true rest
      else 95 :: collapseWsGo true rest
    else c :: collapseWsGo false rest

def collapseWs (l : List Nat) : List Nat := collapseWsGo false l

/-- Function `clean_column` (source lines 34–39): strip, lowercase, delete characters
outside `[0-9a-zA-Z\s_]`, then collapse whitespace runs to `_`. -/
def clean_column (col : List Nat) : List Nat :=
  collapseWs (((pyStrip col).map pyLower).filter keptByRegex)

/-- Codepoints of a string literal, for readable concrete statements. -/
def strCodes (s : String) : List Nat := s.data.map Char.toNat

/-- A raw DataFrame as `pandas` sees it before/after column renaming:
a list of column names plus opaque row data. -/
structure RawDF (α : Type) where
  cols : List (List Nat)
  rows : List α

/-- Function `standardize_column_names` (source line 41): rename every column with
`clean_column`; the row data is untouched. -/
def standardize_column_names {α : Type} (df : RawDF α) : RawDF α :=
  { df with cols := df.cols.map clean_column }

/-! ## Typed rows (the `daily_sales` schema of source lines 111–120) -/

/-- A row of the extracted/normalized table: the columns the pipeline
requires (`transaction_id` is the primary key; `quantity` and `price` are
nullable — a pandas `NaN` is `none`). -/
structure RowT where
  transaction_id : String
  product_id : String
  quantity : Option Int
  price : Option Rat
  transaction_date : String
deriving DecidableEq, Repr

/-- A transformed row: the input columns plus the derived `total_revenue`. -/
structure RowR extends RowT where
  total_revenue : Option Rat
deriving DecidableEq, Repr

/-- One row of `df_transform["quantity"] * df_transform["price"]`: pandas
multiplication propagates nulls (`NaN * x = NaN`). -/
def revenueOf (q : Option Int) (p : Option Rat) : Option Rat :=
  match q, p with
  | some q, some p => some ((q : Rat) * p)
  | _, _ => none

/-- The body of `transform` (source lines 81–82):
`df.dropna(subset=["price"])` then assign `total_revenue`. -/
def transformCore (df : List RowT) : List RowR :=
  (df.filter fun r => r.price.isSome).map fun r =>
    { toRowT := r, total_revenue := revenueOf r.quantity r.price }

/-! ## The persistent store and `load` (source lines 88–137) -/

/-- The `daily_sales` duckdb table: rows in insertion order.
`transaction_id` is the primary key. -/
abbrev Store := List RowR

/-- Result of `SELECT transaction_id FROM daily_sales`, collected into a set
(source lines 121–122); membership in the list models set membership. -/
def existingIds (store : Store) : List String :=
  store.map (·.transaction_id)

/-- Source line 124: `df[~df["transaction_id"].isin(existing_transaction)]`. -/
def newData (df : List RowR) (store : Store) : List RowR :=
  df.filter fun r => !(existingIds store).contains r.transaction_id

/-- The duckdb primary-key constraint on a bulk
`INSERT INTO daily_sales SELECT * FROM new_data` (source line 127): every
inserted key must be fresh and the batch must not collide with itself,
otherwise the whole statement raises and inserts nothing. -/
def insertOk (batch : List RowR) (store : Store) : Prop :=
  (batch.map (·.transaction_id)).Nodup ∧
    ∀ k ∈ batch.map (·.transaction_id), k ∉ existingIds store

instance (batch : List RowR) (store : Store) : Decidable (insertOk batch store) := by
  unfold insertOk; infer_instance

/-- The body of `load` (source lines 99–137) restricted to the store: the
`reset_index(drop=True)` keeps row order and values (only the pandas index
labels change), the csv export does not touch the store, then the
incremental merge runs.  The first component is the returned DataFrame
(`none` when the bulk insert raised and the `except` clause returned
`None`), the second the store after the call — unchanged on failure since
a single failed `INSERT` statement inserts no rows. -/
def loadCore (df : List RowR) (store : Store) : Option (List RowR) × Store :=
  if (newData df store).isEmpty then (some df, store)
  else if insertOk (newData df store) store then (some df, store ++ newData df store)
  else (none, store)

/-- The store after one `load` call. -/
def runStore (df : List RowR) (store : Store) : Store :=
  (loadCore df store).2

/-- The store after a sequence of pipeline runs. -/
def runSeq (batches : List (List RowR)) (store : Store) : Store :=
  batches.foldl (fun s d => runStore d s) store

/-! ## Stage boundaries and orchestration (source lines 57–64, 79–86, 140–146)

Each Python stage wraps its body in `try/except`, logs, and returns `None`
on any exception; `None` is modelled as `Option.none`.  A stage receiving
`None` raises immediately (`pd.read_csv` failure for extract,
`None.dropna` / `None.reset_index` for the later stages), which its own
`except` turns into another `None`. -/

/-- Function `extract` (source lines 57–64): `src` is the parsed, already
column-normalized file content; `none` models an unreadable or unparseable
source file, whose exception is caught and turned into `None`. -/
def extractStage (src : Option (List RowT)) : Option (List RowT) := src

/-- Function `transform` (source lines 79–86) at the stage boundary: a `None` input
raises `AttributeError` inside the `try`, caught, returning `None`. -/
def transformStage (o : Option (List RowT)) : Option (List RowR) :=
  match o with
  | none => none
  | some df => some (transformCore df)

/-- Function `load` (source lines 99–137) at the stage boundary. -/
def loadStage (o : Option (List RowR)) (store : Store) :
    Option (List RowR) × Store :=
  match o with
  | none => (none, store)
  | some df => loadCore df store

/-- The `__main__` orchestration (source lines 140–146): each stage's result
is passed unchanged — unchecked — into the next stage. -/
def pipelineRun (src : Option (List RowT)) (store : Store) :
    Option (List RowR) × Store :=
  loadStage (transformStage (extractStage src)) store

/-! ## Sample rows, used by the concrete witnesses below -/

/-- A sample input row (null `quantity`, so no `Rat` arithmetic is needed
when evaluating it). -/
def sampleT (i : String) (p : Option Rat) : RowT :=
  ⟨i, "prod", none, p, "2024-01-01"⟩

/-- A sample transformed row. -/
def sampleR (i : String) (p : Option Rat) : RowR :=
  ⟨sampleT i p, revenueOf none p⟩

end DailySalesETL

namespace DailySalesETL

/-! ## Claims about normalization and transform -/

/-- Characters that can appear in a cleaned column name:
digits, lowercase ASCII letters, underscore. -/
def isCleanChar (c : Nat) : Bool :=
  (48 ≤ c && c ≤ 57) || (97 ≤ c && c ≤ 122) || c = 95

/-- C4 — column-name normalization: `clean_column` is exactly the
trim / lowercase / delete-non-kept / collapse-whitespace pipeline, it sends
`" Transaction ID! "` to `"transaction_id"`, and `standardize_column_names`
changes only the column names, never the row data or their order. -/
theorem claim_C4_normalization_correct :
    clean_column (strCodes " Transaction ID! ") = strCodes "transaction_id"
    ∧ (∀ col, clean_column col
        = collapseWs (((pyStrip col).map pyLower).filter keptByRegex))
    ∧ ∀ (α : Type) (df : RawDF α),
        (standardize_column_names df).rows = df.rows
        ∧ (standardize_column_names df).cols = df.cols.map clean_column :=
  ⟨by decide, fun _ => rfl, fun _ _ => ⟨rfl, rfl⟩⟩

/-- C6 — transform null-filtering: no output row has a null `price`, the
output row count equals the count of input rows with non-null `price`, and
the surviving rows are exactly the non-null-price input rows in input
order with all original values unchanged. -/
theorem claim_C6_transform_null_filter (df : List RowT) :
    (∀ r ∈ transformCore df, r.price ≠ none)
    ∧ (transformCore df).length = (df.filter fun r => r.price.isSome).length
    ∧ (transformCore df).map (·.toRowT) = df.filter fun r => r.price.isSome := by
  refine ⟨?_, ?_, ?_⟩
  · intro r hr
    rcases List.mem_map.1 hr with ⟨x, hx, rfl⟩
    have hp : x.price.isSome := by
      simpa using (List.mem_filter.1 hx).2
    simp only [Option.isSome_iff_exists] at hp
    rcases hp with ⟨p, hp⟩
    simp [hp]
  · simp [transformCore]
  · simp only [transformCore, List.map_map]
    rw [show ((fun x : RowR => x.toRowT) ∘ fun r : RowT =>
        ({ toRowT := r, total_revenue := revenueOf r.quantity r.price } : RowR)) = id
      from rfl, List.map_id]

/-- C7 — revenue computation: for every row surviving the transform,
`total_revenue` is exactly `quantity * price`, and a null `quantity`
propagates to a null `total_revenue` rather than erroring. -/
theorem claim_C7_revenue_computation (df : List RowT) (r : RowR)
    (hr : r ∈ transformCore df) :
    (r.quantity = none → r.total_revenue = none)
    ∧ ∀ q p, r.quantity = some q → r.price = some p →
        r.total_revenue = some ((q : Rat) * p) := by
  rcases List.mem_map.1 hr with ⟨x, _, rfl⟩
  constructor
  · intro hq
    simp only at hq
    simp [revenueOf, hq]
  · intro q p hq hp
    simp only at hq hp
    simp [revenueOf, hq, hp]

/-- Concrete instance of C7 at a one-row table whose `quantity` is null. -/
theorem claim_C7_revenue_computation_witness :
    (sampleR "a" (some 3)) ∈ transformCore [sampleT "a" (some 3)]
    ∧ (((sampleR "a" (some 3)).quantity = none →
          (sampleR "a" (some 3)).total_revenue = none)
        ∧ ∀ q p, (sampleR "a" (some 3)).quantity = some q →
            (sampleR "a" (some 3)).price = some p →
            (sampleR "a" (some 3)).total_revenue = some ((q : Rat) * p)) :=
  ⟨by decide, claim_C7_revenue_computation [sampleT "a" (some 3)] _ (by decide)⟩

/-- C8 — error handling: a failed stage returns an undefined result
(`none`) instead of propagating; the orchestration chains the stages
without checking, so an extract failure flows through transform and load,
each of which again returns `none`, leaving the store untouched. -/
theorem claim_C8_error_cascade :
    (∀ store : Store, pipelineRun none store = (none, store))
    ∧ transformStage none = none
    ∧ (∀ store : Store, loadStage none store = (none, store))
    ∧ ∀ (src : Option (List RowT)) (store : Store),
        pipelineRun src store = loadStage (transformStage (extractStage src)) store :=
  ⟨fun _ => rfl, rfl, fun _ => rfl, fun _ _ => rfl⟩

/-- C9 — load returns its input: whenever `load` succeeds (returns a
DataFrame rather than `None`), the returned table is the one passed in,
with the same rows, values and columns. -/
theorem claim_C9_load_returns_input (df : List RowR) (store : Store)
    (out : List RowR) (s2 : Store) (h : loadCore df store = (some out, s2)) :
    out = df := by
  unfold loadCore at h
  split at h
  · exact (Option.some_inj.1 (congrArg Prod.fst h)).symm
  · split at h
    · exact (Option.some_inj.1 (congrArg Prod.fst h)).symm
    · exact absurd (congrArg Prod.fst h) (by simp)

/-- Concrete instance of C9: loading a one-row table into an empty store. -/
theorem claim_C9_load_returns_input_witness :
    loadCore [sampleR "a" (some 3)] [] = (some [sampleR "a" (some 3)], [sampleR "a" (some 3)])
    ∧ [sampleR "a" (some 3)] = [sampleR "a" (some 3)] :=
  ⟨by decide,
   claim_C9_load_returns_input [sampleR "a" (some 3)] [] [sampleR "a" (some 3)]
     [sampleR "a" (some 3)] (by decide)⟩

/-! ## Lemmas about the incremental merge -/

/-- Membership in the deduplicated batch. -/
lemma mem_newData {r : RowR} {df : List RowR} {store : Store} :
    r ∈ newData df store ↔ r ∈ df ∧ r.transaction_id ∉ existingIds store := by
  simp [newData, List.mem_filter, List.elem_iff]

/-- A batch with pairwise-distinct ids deduplicates to an insertable batch. -/
lemma insertOk_newData (df : List RowR) (store : Store)
    (hd : (df.map (·.transaction_id)).Nodup) :
    insertOk (newData df store) store := by
  constructor
  · exact hd.sublist ((List.filter_sublist df).map (·.transaction_id))
  · intro k hk
    rcases List.mem_map.1 hk with ⟨r, hr, rfl⟩
    exact (mem_newData.1 hr).2

/-- When the primary-key constraint is satisfied, `load` succeeds and the
store becomes the old store followed by the deduplicated batch. -/
lemma loadCore_eq_append (df : List RowR) (store : Store)
    (h : insertOk (newData df store) store) :
    loadCore df store = (some df, store ++ newData df store) := by
  unfold loadCore
  by_cases he : (newData df store).isEmpty
  · rw [if_pos he, List.isEmpty_iff.1 he, List.append_nil]
  · rw [if_neg he, if_pos h]

/-- Function `load` skips the insert when the deduplicated batch is empty. -/
lemma loadCore_of_newData_nil (df : List RowR) (store : Store)
    (h : newData df store = []) : loadCore df store = (some df, store) := by
  unfold loadCore
  rw [h]
  simp

/-- The three possible outcomes of one `load` call on the store. -/
lemma runStore_cases (df : List RowR) (store : Store) :
    runStore df store = store
    ∨ (runStore df store = store ++ newData df store
        ∧ insertOk (newData df store) store) := by
  unfold runStore loadCore
  split
  · exact Or.inl rfl
  · split
    · rename_i h
      exact Or.inr ⟨rfl, h⟩
    · exact Or.inl rfl

/-- Every `load` call only ever appends to the store. -/
lemma runStore_append_only (df : List RowR) (store : Store) :
    store <+: runStore df store := by
  rcases runStore_cases df store with h | ⟨h, _⟩
  · rw [h]
  · rw [h]
    exact ⟨newData df store, rfl⟩

/-- Every `load` call preserves the primary-key invariant. -/
lemma runStore_nodup (df : List RowR) (store : Store)
    (h : (existingIds store).Nodup) :
    (existingIds (runStore df store)).Nodup := by
  rcases runStore_cases df store with hc | ⟨hc, hok, hfresh⟩
  · rwa [hc]
  · rw [hc]
    unfold existingIds
    rw [List.map_append]
    refine h.append hok ?_
    intro a ha hb
    exact hfresh a hb ha

/-- C3 — store invariant and append-only lifecycle: starting from any store
with pairwise-distinct `transaction_id`s, one `load` call, and likewise any
sequence of runs, preserves the no-duplicate-key invariant and only ever
appends: every row present before is still present, unmodified, in its old
position. -/
theorem claim_C3_invariant_append_only :
    (∀ (df : List RowR) (store : Store), (existingIds store).Nodup →
        store <+: runStore df store ∧ (existingIds (runStore df store)).Nodup)
    ∧ ∀ (batches : List (List RowR)) (store : Store), (existingIds store).Nodup →
        store <+: runSeq batches store ∧ (existingIds (runSeq batches store)).Nodup := by
  constructor
  · intro df store h
    exact ⟨runStore_append_only df store, runStore_nodup df store h⟩
  · intro batches
    induction batches with
    | nil =>
      intro store h
      exact ⟨⟨[], List.append_nil store⟩, h⟩
    | cons d bs ih =>
      intro store h
      have hseq : runSeq (d :: bs) store = runSeq bs (runStore d store) := rfl
      rcases ih (runStore d store) (runStore_nodup d store h) with ⟨hp, hn⟩
      exact ⟨hseq ▸ (runStore_append_only d store).trans hp, hseq ▸ hn⟩

/-- Concrete instance of C3: two runs of the same one-row batch from the
empty store. -/
theorem claim_C3_invariant_append_only_witness :
    (existingIds ([] : Store)).Nodup
    ∧ (([] : Store) <+: runStore [sampleR "a" (some 3)] []
        ∧ (existingIds (runStore [sampleR "a" (some 3)] [])).Nodup)
    ∧ (([] : Store) <+: runSeq [[sampleR "a" (some 3)], [sampleR "a" (some 3)]] []
        ∧ (existingIds (runSeq [[sampleR "a" (some 3)], [sampleR "a" (some 3)]] [])).Nodup) :=
  ⟨by decide,
   claim_C3_invariant_append_only.1 [sampleR "a" (some 3)] [] (by decide),
   claim_C3_invariant_append_only.2 [[sampleR "a" (some 3)], [sampleR "a" (some 3)]] []
     (by decide)⟩

/-- C2 — merge idempotence: loading the same batch twice into a store that
satisfies the key invariant leaves the store of the first run unchanged
(the second run's deduplicated batch is empty, so it inserts zero rows),
and every batch id occurs exactly once in the store. -/
theorem claim_C2_merge_idempotent (df : List RowR) (store : Store)
    (hs : (existingIds store).Nodup) (hd : (df.map (·.transaction_id)).Nodup) :
    runStore df (runStore df store) = runStore df store
    ∧ newData df (runStore df store) = []
    ∧ ∀ r ∈ df, (existingIds (runStore df store)).count r.transaction_id = 1 := by
  have hok := insertOk_newData df store hd
  have hs1 : runStore df store = store ++ newData df store := by
    unfold runStore
    rw [loadCore_eq_append df store hok]
  have hmem : ∀ r ∈ df, r.transaction_id ∈ existingIds (runStore df store) := by
    intro r hr
    rw [hs1]
    unfold existingIds
    rw [List.map_append, List.mem_append]
    by_cases hin : r.transaction_id ∈ existingIds store
    · exact Or.inl hin
    · exact Or.inr (List.mem_map.2 ⟨r, mem_newData.2 ⟨hr, hin⟩, rfl⟩)
  have hnd2 : newData df (runStore df store) = [] := by
    refine List.filter_eq_nil_iff.2 ?_
    intro r hr
    simp only [Bool.not_eq_true', Bool.not_eq_false, List.elem_iff]
    exact hmem r hr
  refine ⟨?_, hnd2, ?_⟩
  · show (loadCore df (runStore df store)).2 = runStore df store
    rw [loadCore_of_newData_nil _ _ hnd2]
  · intro r hr
    exact List.count_eq_one_of_mem (runStore_nodup df store hs) (hmem r hr)

/-- Concrete instance of C2: a two-row batch loaded twice over a one-row
store. -/
theorem claim_C2_merge_idempotent_witness :
    (existingIds [sampleR "c" (some 5)]).Nodup
    ∧ ([sampleR "a" (some 3), sampleR "b" (some 4)].map (·.transaction_id)).Nodup
    ∧ (runStore [sampleR "a" (some 3), sampleR "b" (some 4)]
          (runStore [sampleR "a" (some 3), sampleR "b" (some 4)] [sampleR "c" (some 5)])
        = runStore [sampleR "a" (some 3), sampleR "b" (some 4)] [sampleR "c" (some 5)]
      ∧ newData [sampleR "a" (some 3), sampleR "b" (some 4)]
          (runStore [sampleR "a" (some 3), sampleR "b" (some 4)] [sampleR "c" (some 5)]) = []
      ∧ ∀ r ∈ [sampleR "a" (some 3), sampleR "b" (some 4)],
          (existingIds (runStore [sampleR "a" (some 3), sampleR "b" (some 4)]
            [sampleR "c" (some 5)])).count r.transaction_id = 1) :=
  ⟨by decide, by decide,
   claim_C2_merge_idempotent [sampleR "a" (some 3), sampleR "b" (some 4)]
     [sampleR "c" (some 5)] (by decide) (by decide)⟩

/-- C1 — merge correctness end-to-end: from the empty store, loading rows
with ids `A, B` leaves the store `[rowA, rowB]`; loading a second batch
with ids `B, C` (any row values for the repeated id `B`) leaves the store
`[rowA, rowB, rowC]` — id `B` occurs exactly once, and its row is the
original first-batch row. -/
theorem claim_C1_merge_end_to_end (rA rB rB2 rC : RowR)
    (hB2 : rB2.transaction_id = rB.transaction_id)
    (hAB : rA.transaction_id ≠ rB.transaction_id)
    (hBC : rB.transaction_id ≠ rC.transaction_id)
    (hAC : rA.transaction_id ≠ rC.transaction_id) :
    runStore [rA, rB] [] = [rA, rB]
    ∧ runStore [rB2, rC] [rA, rB] = [rA, rB, rC]
    ∧ (existingIds [rA, rB, rC]).count rB.transaction_id = 1 := by
  have h1 : newData [rA, rB] ([] : Store) = [rA, rB] := by
    simp [newData, existingIds]
  have hok1 : insertOk (newData [rA, rB] []) [] := by
    rw [h1]
    exact ⟨by simp [hAB], by simp [existingIds]⟩
  have hr1 : runStore [rA, rB] [] = [rA, rB] := by
    unfold runStore
    rw [loadCore_eq_append _ _ hok1, h1]
    rfl
  have h2 : newData [rB2, rC] [rA, rB] = [rC] := by
    simp [newData, existingIds, List.filter_cons, hB2, Ne.symm hAC, Ne.symm hBC]
  have hok2 : insertOk (newData [rB2, rC] [rA, rB]) [rA, rB] := by
    rw [h2]
    refine ⟨by simp, ?_⟩
    intro k hk
    simp only [List.map_cons, List.map_nil, List.mem_singleton] at hk
    subst hk
    simp [existingIds, Ne.symm hAC, Ne.symm hBC]
  have hr2 : runStore [rB2, rC] [rA, rB] = [rA, rB, rC] := by
    unfold runStore
    rw [loadCore_eq_append _ _ hok2, h2]
    rfl
  refine ⟨hr1, hr2, ?_⟩
  simp [existingIds, List.count_cons, hAB, Ne.symm hBC]

/-- Concrete instance of C1 with ids `a`, `b`, `c` and a second `b` row
carrying different values. -/
theorem claim_C1_merge_end_to_end_witness :
    (sampleR "b" (some 9)).transaction_id = (sampleR "b" (some 4)).transaction_id
    ∧ (sampleR "a" (some 3)).transaction_id ≠ (sampleR "b" (some 4)).transaction_id
    ∧ (sampleR "b" (some 4)).transaction_id ≠ (sampleR "c" (some 5)).transaction_id
    ∧ (sampleR "a" (some 3)).transaction_id ≠ (sampleR "c" (some 5)).transaction_id
    ∧ (runStore [sampleR "a" (some 3), sampleR "b" (some 4)] [] =
        [sampleR "a" (some 3), sampleR "b" (some 4)]
      ∧ runStore [sampleR "b" (some 9), sampleR "c" (some 5)]
          [sampleR "a" (some 3), sampleR "b" (some 4)] =
          [sampleR "a" (some 3), sampleR "b" (some 4), sampleR "c" (some 5)]
      ∧ (existingIds [sampleR "a" (some 3), sampleR "b" (some 4), sampleR "c" (some 5)]).count
          (sampleR "b" (some 4)).transaction_id = 1) :=
  ⟨by decide, by decide, by decide, by decide,
   claim_C1_merge_end_to_end (sampleR "a" (some 3)) (sampleR "b" (some 4))
     (sampleR "b" (some 9)) (sampleR "c" (some 5))
     (by decide) (by decide) (by decide) (by decide)⟩

/-- C10 — duplicate ids inside one batch: the dedup step only compares
against keys already in the store, so both copies stay in the deduplicated
batch; the bulk insert then violates the primary key, `load` returns an
undefined result (`None`), and the store is unchanged. -/
theorem claim_C10_duplicate_in_batch (pre mid post : List RowR) (r1 r2 : RowR)
    (store : Store) (h12 : r1.transaction_id = r2.transaction_id)
    (hfresh : r1.transaction_id ∉ existingIds store) :
    r1 ∈ newData (pre ++ r1 :: mid ++ r2 :: post) store
    ∧ r2 ∈ newData (pre ++ r1 :: mid ++ r2 :: post) store
    ∧ 2 ≤ ((newData (pre ++ r1 :: mid ++ r2 :: post) store).map
        (·.transaction_id)).count r1.transaction_id
    ∧ loadCore (pre ++ r1 :: mid ++ r2 :: post) store = (none, store) := by
  have hm1 : r1 ∈ pre ++ r1 :: mid ++ r2 :: post := by simp
  have hm2 : r2 ∈ pre ++ r1 :: mid ++ r2 :: post := by simp
  have hn1 : r1 ∈ newData (pre ++ r1 :: mid ++ r2 :: post) store :=
    mem_newData.2 ⟨hm1, hfresh⟩
  have hn2 : r2 ∈ newData (pre ++ r1 :: mid ++ r2 :: post) store :=
    mem_newData.2 ⟨hm2, by rwa [← h12]⟩
  have hsub : List.Sublist [r1, r2] (pre ++ r1 :: mid ++ r2 :: post) := by
    have t1 : List.Sublist [r2] (r2 :: post) := (List.nil_sublist post).cons₂ r2
    have t2 : List.Sublist [r2] (mid ++ r2 :: post) :=
      t1.trans (List.sublist_append_right mid (r2 :: post))
    have t3 : List.Sublist [r1, r2] (r1 :: (mid ++ r2 :: post)) := t2.cons₂ r1
    simp only [List.cons_append, List.append_assoc]
    exact t3.trans (List.sublist_append_right pre (r1 :: (mid ++ r2 :: post)))
  have hsubf : List.Sublist [r1, r2] (newData (pre ++ r1 :: mid ++ r2 :: post) store) := by
    have hkeep :
        List.filter (fun r => !(existingIds store).contains r.transaction_id) [r1, r2]
          = [r1, r2] := by
      refine List.filter_eq_self.2 ?_
      intro a ha
      simp only [List.mem_cons, List.not_mem_nil, or_false] at ha
      rcases ha with rfl | rfl
      · simpa [List.elem_iff] using hfresh
      · simp only [Bool.not_eq_true', ← Bool.not_eq_true, List.elem_iff]
        rwa [← h12]
    have hf := hsub.filter (fun r => !(existingIds store).contains r.transaction_id)
    rw [hkeep] at hf
    exact hf
  have hcount : 2 ≤ ((newData (pre ++ r1 :: mid ++ r2 :: post) store).map
      (·.transaction_id)).count r1.transaction_id := by
    have hle := (hsubf.map (·.transaction_id)).count_le r1.transaction_id
    have h2 : ([r1, r2].map (·.transaction_id)).count r1.transaction_id = 2 := by
      simp [List.count_cons, h12]
    omega
  have hnok : ¬ insertOk (newData (pre ++ r1 :: mid ++ r2 :: post) store) store := by
    rintro ⟨hnd, -⟩
    have := List.nodup_iff_count_le_one.1 hnd r1.transaction_id
    omega
  have hne : ¬ ((newData (pre ++ r1 :: mid ++ r2 :: post) store).isEmpty = true) := by
    intro he
    rw [List.isEmpty_iff.1 he] at hn1
    exact List.not_mem_nil r1 hn1
  refine ⟨hn1, hn2, hcount, ?_⟩
  unfold loadCore
  rw [if_neg hne, if_neg hnok]

/-- Concrete instance of C10: a batch with two rows sharing id `a` against
the empty store. -/
theorem claim_C10_duplicate_in_batch_witness :
    (sampleR "a" (some 3)).transaction_id = (sampleR "a" (some 4)).transaction_id
    ∧ (sampleR "a" (some 3)).transaction_id ∉ existingIds ([] : Store)
    ∧ (sampleR "a" (some 3) ∈ newData
          ([] ++ sampleR "a" (some 3) :: [] ++ sampleR "a" (some 4) :: []) []
      ∧ sampleR "a" (some 4) ∈ newData
          ([] ++ sampleR "a" (some 3) :: [] ++ sampleR "a" (some 4) :: []) []
      ∧ 2 ≤ ((newData ([] ++ sampleR "a" (some 3) :: [] ++ sampleR "a" (some 4) :: []) []).map
          (·.transaction_id)).count (sampleR "a" (some 3)).transaction_id
      ∧ loadCore ([] ++ sampleR "a" (some 3) :: [] ++ sampleR "a" (some 4) :: []) []
          = (none, [])) :=
  ⟨by decide, by decide,
   claim_C10_duplicate_in_batch [] [] [] (sampleR "a" (some 3)) (sampleR "a" (some 4)) []
     (by decide) (by decide)⟩

/-! ## Idempotence of column cleaning (claim C5) -/

/-- Every character produced by `collapseWsGo` is an underscore or a
non-whitespace character of the input. -/
lemma mem_collapseWsGo {a : Nat} :
    ∀ {b : Bool} {l : List Nat}, a ∈ collapseWsGo b l →
      a = 95 ∨ (a ∈ l ∧ isPySpace a = false) := by
  intro b l
  induction l generalizing b with
  | nil => simp [collapseWsGo]
  | cons c rest ih =>
    intro h
    by_cases hc : isPySpace c
    · rw [collapseWsGo, if_pos hc] at h
      rcases b with _ | _
      · rcases List.mem_cons.1 h with rfl | h'
        · exact Or.inl rfl
        · rcases ih h' with h95 | ⟨hm, hs⟩
          · exact Or.inl h95
          · exact Or.inr ⟨List.mem_cons_of_mem c hm, hs⟩
      · rcases ih h with h95 | ⟨hm, hs⟩
        · exact Or.inl h95
        · exact Or.inr ⟨List.mem_cons_of_mem c hm, hs⟩
    · rw [collapseWsGo, if_neg hc] at h
      rcases List.mem_cons.1 h with rfl | h'
      · exact Or.inr ⟨List.mem_cons_self a rest, Bool.not_eq_true _ ▸ hc⟩
      · rcases ih h' with h95 | ⟨hm, hs⟩
        · exact Or.inl h95
        · exact Or.inr ⟨List.mem_cons_of_mem c hm, hs⟩

/-- Every character of a cleaned column name is a digit, a lowercase ASCII
letter, or an underscore. -/
lemma clean_column_chars {a : Nat} {col : List Nat}
    (h : a ∈ clean_column col) : isCleanChar a = true := by
  unfold clean_column collapseWs at h
  rcases mem_collapseWsGo h with rfl | ⟨hmem, hsp⟩
  · simp [isCleanChar]
  · rcases List.mem_filter.1 hmem with ⟨hmem2, hkept⟩
    rcases List.mem_map.1 hmem2 with ⟨b, _, rfl⟩
    by_cases hub : (65 ≤ b ∧ b ≤ 90)
    · have hval : pyLower b = b + 32 := by
        simp [pyLower, hub]
      rw [hval]
      rw [hval] at hkept hsp
      simp only [isCleanChar, Bool.or_eq_true, Bool.and_eq_true, decide_eq_true_eq]
      omega
    · have hval : pyLower b = b := by
        simp only [pyLower, Bool.and_eq_true, decide_eq_true_eq]
        rw [if_neg hub]
      rw [hval] at hkept hsp ⊢
      simp only [keptByRegex, isPySpace, Bool.or_eq_true, Bool.and_eq_true,
        decide_eq_true_eq] at hkept
      simp only [isPySpace, Bool.or_eq_false_iff, decide_eq_false_iff_not] at hsp
      simp only [isCleanChar, Bool.or_eq_true, Bool.and_eq_true, decide_eq_true_eq]
      omega

/-- A clean character is not whitespace. -/
lemma isCleanChar_not_space {a : Nat} (h : isCleanChar a = true) :
    isPySpace a = false := by
  simp only [isCleanChar, Bool.or_eq_true, Bool.and_eq_true, decide_eq_true_eq] at h
  simp only [isPySpace, Bool.or_eq_false_iff, decide_eq_false_iff_not]
  omega

/-- Dropping leading whitespace does nothing to a whitespace-free list. -/
lemma dropWhile_space_eq_self {l : List Nat}
    (h : ∀ a ∈ l, isPySpace a = false) : l.dropWhile isPySpace = l := by
  cases l with
  | nil => rfl
  | cons c rest =>
    rw [List.dropWhile_cons, h c (List.mem_cons_self c rest)]
    simp

/-- Stripping does nothing to a whitespace-free list. -/
lemma pyStrip_eq_self {l : List Nat}
    (h : ∀ a ∈ l, isPySpace a = false) : pyStrip l = l := by
  unfold pyStrip
  rw [dropWhile_space_eq_self h,
    dropWhile_space_eq_self (fun a ha => h a (List.mem_reverse.1 ha)),
    List.reverse_reverse]

/-- Lowercasing does nothing to a clean character. -/
lemma pyLower_eq_self_of_clean {a : Nat} (h : isCleanChar a = true) :
    pyLower a = a := by
  simp only [isCleanChar, Bool.or_eq_true, Bool.and_eq_true, decide_eq_true_eq] at h
  have h90 : ¬(65 ≤ a ∧ a ≤ 90) := by omega
  simp only [pyLower, Bool.and_eq_true, decide_eq_true_eq]
  rw [if_neg h90]

/-- Clean characters survive the character-class filter. -/
lemma keptByRegex_of_clean {a : Nat} (h : isCleanChar a = true) :
    keptByRegex a = true := by
  simp only [isCleanChar, Bool.or_eq_true, Bool.and_eq_true, decide_eq_true_eq] at h
  simp only [keptByRegex, isPySpace, Bool.or_eq_true, Bool.and_eq_true,
    decide_eq_true_eq]
  omega

/-- Collapsing does nothing to a whitespace-free list. -/
lemma collapseWsGo_eq_self {l : List Nat}
    (h : ∀ a ∈ l, isPySpace a = false) : ∀ b, collapseWsGo b l = l := by
  induction l with
  | nil => intro b; rfl
  | cons c rest ih =>
    intro b
    rw [collapseWsGo, if_neg (by simp [h c (List.mem_cons_self c rest)]),
      ih (fun a ha => h a (List.mem_cons_of_mem c ha)) false]

/-- Lowercasing does nothing to a list of clean characters. -/
lemma map_pyLower_eq_self {l : List Nat}
    (h : ∀ a ∈ l, isCleanChar a = true) : l.map pyLower = l := by
  induction l with
  | nil => rfl
  | cons c rest ih =>
    rw [List.map_cons, pyLower_eq_self_of_clean (h c (List.mem_cons_self c rest)),
      ih (fun a ha => h a (List.mem_cons_of_mem c ha))]

/-- C5 — normalization idempotence: cleaning an already-cleaned column name
returns it unchanged, hence normalizing a normalized column-name set is the
identity. -/
theorem claim_C5_normalization_idempotent (col : List Nat) :
    clean_column (clean_column col) = clean_column col := by
  have hc : ∀ a ∈ clean_column col, isCleanChar a = true :=
    fun a ha => clean_column_chars ha
  have hns : ∀ a ∈ clean_column col, isPySpace a = false :=
    fun a ha => isCleanChar_not_space (hc a ha)
  show collapseWs (((pyStrip (clean_column col)).map pyLower).filter keptByRegex)
      = clean_column col
  rw [pyStrip_eq_self hns, map_pyLower_eq_self hc,
    List.filter_eq_self.2 (fun a ha => keptByRegex_of_clean (hc a ha))]
  exact collapseWsGo_eq_self hns false

end DailySalesETL
